import Mathlib

/-!
Shallow embedding of the node-cache-ts repository (src/node_cache.ts and
src/snow_cache.ts) and proofs about the claims of its specification.

Modelling conventions:
* JavaScript runtime values are modelled by the inductive `JsVal`
  (Promises and Buffers are not modelled; no claim involves them).
* JavaScript numbers are modelled as exact integers (`Int`); floating point
  rounding is out of scope.  Timestamps (`Date.now()`) are passed explicitly
  as a `now : Int` argument to every operation that reads the clock.
* The entry store (a plain JS object) is modelled as an association list in
  insertion order with unique keys, exactly the observable behaviour of a JS
  object used as a dictionary.
* Thrown errors are modelled with `Except`; every operation returns the state
  at the moment of the throw, so partial mutation before a throw is preserved.
* Event emission (`EventEmitter`) is not modelled for the base cache, because
  no subscriber of the base cache mutates its state; for the refresh layer the
  emitted refresh_error notification is returned explicitly as an event list.
* `useClones` is irrelevant in the model (`structuredClone` is the identity on
  immutable values); `forceString` is modelled in its default `false` setting,
  so `normalizedValue = value` in `set`.
-/

set_option autoImplicit false

/-- Model of a JavaScript runtime value (Buffers and Promises omitted). -/
inductive JsVal where
  | vnull
  | vundef
  | vbool (b : Bool)
  | vnum (n : Int)
  | vstr (s : String)
  | varr (elems : List JsVal)
  | vobj (fields : List (String × JsVal))
deriving Repr

/-- JavaScript truthiness of a value (NaN is not modelled). -/
def JsVal.truthy : JsVal → Bool
  | .vnull => false
  | .vundef => false
  | .vbool b => b
  | .vnum n => n != 0
  | .vstr s => s != ""
  | .varr _ => true
  | .vobj _ => true

/-- The JavaScript typeof operator on modelled values. -/
def jsTypeof : JsVal → String
  | .vnull => "object"
  | .vundef => "undefined"
  | .vbool _ => "boolean"
  | .vnum _ => "number"
  | .vstr _ => "string"
  | .varr _ => "object"
  | .vobj _ => "object"

/-- Coercion of a value used as a property key to a string, as JS performs when
indexing an object.  Keys reaching the store are always strings or numbers;
the remaining cases follow the JS String() coercion where it is simple. -/
def keyToString : JsVal → String
  | .vstr s => s
  | .vnum n => toString n
  | .vbool b => if b then "true" else "false"
  | .vnull => "null"
  | .vundef => "undefined"
  | .varr _ => ""
  | .vobj _ => "[object Object]"

def JsVal.isNull : JsVal → Bool
  | .vnull => true
  | _ => false

/-- Error names thrown by the cache (NodeCache._error name values). -/
inductive CacheErr where
  | EKEYTYPE
  | ECACHEFULL
  | ETTLTYPE
  | EKEYSTYPE
deriving Repr, DecidableEq

/-- A wrapped value stored in the cache: absolute expiry timestamp in ms
(0 = never expires) and the stored value (WrappedValue in the source). -/
structure Entry where
  t : Int
  v : JsVal
deriving Repr

/-- The data store: a JS object used as a map, i.e. an insertion-ordered
association list with unique string keys. -/
abbrev Store := List (String × Entry)

/-- The five statistics counters of NodeCache. -/
structure Stats where
  hits : Int
  misses : Int
  keys : Int
  ksize : Int
  vsize : Int
deriving Repr, DecidableEq

/-- The cache options that influence the modelled behaviour.
forceString is fixed to false and useClones is immaterial in the model;
checkperiod only drives the background timer, which is not modelled
(the periodic sweep applies the same check predicate as every read). -/
structure Opts where
  stdTTL : Int
  deleteOnExpire : Bool
  maxKeys : Int
  objectValueSize : Int
  arrayValueSize : Int
deriving Repr, DecidableEq

/-- The option defaults from the NodeCache constructor. -/
def defaultOpts : Opts :=
  { stdTTL := 0, deleteOnExpire := true, maxKeys := -1
    objectValueSize := 80, arrayValueSize := 40 }

/-- Zeroed statistics, as set by the constructor, flushAll and flushStats. -/
def zeroStats : Stats := ⟨0, 0, 0, 0, 0⟩

/-- The mutable state of one NodeCache instance: data store plus stats. -/
structure CacheState where
  data : Store
  stats : Stats
deriving Repr

/-- A freshly constructed cache: empty store, zeroed stats. -/
def initCache : CacheState := ⟨[], zeroStats⟩

/-- Lookup in a JS object: the (unique) binding of the key, if present. -/
def storeFind {β : Type} : List (String × β) → String → Option β
  | [], _ => none
  | p :: rest, k => if p.1 = k then some p.2 else storeFind rest k

/-- Assignment obj[k] = e on a JS object: replaces the binding in place when
the key is present, otherwise appends it. -/
def alistSet {β : Type} : List (String × β) → String → β → List (String × β)
  | [], k, e => [(k, e)]
  | p :: rest, k, e => if p.1 = k then (k, e) :: rest else p :: alistSet rest k e

/-- Removal (delete obj[k]) on a JS object. -/
def storeErase {β : Type} : List (String × β) → String → List (String × β)
  | [], _ => []
  | p :: rest, k => if p.1 = k then rest else p :: storeErase rest k

namespace NodeCache

/-- Model of NodeCache._isInvalidKey: keys must be of type string or number;
returns the error that the caller will throw, if any. -/
def isInvalidKey (key : JsVal) : Option CacheErr :=
  if jsTypeof key = "string" ∨ jsTypeof key = "number" then none
  else some .EKEYTYPE

/-- Model of NodeCache._getKeyLength: length of the stringified key. -/
def getKeyLength (key : JsVal) : Int := (keyToString key).length

/-- Model of NodeCache._getValLength with forceString = false.  The Promise
branch of the source is unreachable (it compares the boolean result of
hasOwnProperty with the string "function") and Buffers are not modelled,
so a Promise or Buffer value falls through as a generic object there. -/
def getValLength (o : Opts) : JsVal → Int
  | .vstr s => s.length
  | .varr elems => o.arrayValueSize * elems.length
  | .vnum _ => 8
  | .vobj fields => o.objectValueSize * fields.length
  | .vbool _ => 8
  | .vnull => 0
  | .vundef => 0

/-- Model of NodeCache._wrap.  The ttl argument is the JS number passed to
_wrap after default-parameter substitution: `some n` is the number n, `none`
stands for the falsy non-number ttls (null, empty string, false), which all
take the standard-TTL branch of the source.  An omitted ttl becomes the
number stdTTL through the default parameter of `set`, which lands in the
identical arithmetic.  The clone flag is immaterial in the model. -/
def wrap (o : Opts) (now : Int) (value : JsVal) (ttl : Option Int) : Entry :=
  let livetime : Int :=
    match ttl with
    | some n => if n = 0 then 0 else now + n * 1000
    | none => if o.stdTTL = 0 then 0 else now + o.stdTTL * 1000
  ⟨livetime, value⟩

/-- The per-key body of NodeCache.del after key validation, operating on the
canonical string key: subtract the stats contribution and remove the entry
when present.  Returns the deleted count contribution (0 or 1). -/
def delKeyStr (o : Opts) (st : CacheState) (ks : String) : Nat × CacheState :=
  match storeFind st.data ks with
  | none => (0, st)
  | some e =>
      (1, ⟨storeErase st.data ks,
        { st.stats with
            vsize := st.stats.vsize - getValLength o e.v
            ksize := st.stats.ksize - (ks.length : Int)
            keys := st.stats.keys - 1 }⟩)

/-- Model of NodeCache._check, src/node_cache.ts lines 697-708: an entry is
stale when its expiry is nonzero and in the past; a stale entry is deleted
(through del, with stats adjustment) only when deleteOnExpire is enabled,
and only in that case is false returned.  The expired event emission is not
modelled. -/
def check (o : Opts) (now : Int) (ks : String) (st : CacheState) :
    Bool × CacheState :=
  match storeFind st.data ks with
  | none => (true, st)
  | some e =>
      if e.t ≠ 0 ∧ e.t < now then
        if o.deleteOnExpire then (false, (delKeyStr o st ks).2)
        else (true, st)
      else (true, st)

/-- Model of NodeCache.get, src/node_cache.ts lines 140-159.  Returns
`some value` on a live hit (hits incremented) and `none` (JS undefined) on a
miss (misses incremented). -/
def get (o : Opts) (now : Int) (key : JsVal) (st : CacheState) :
    Except CacheErr (Option JsVal) × CacheState :=
  match isInvalidKey key with
  | some e => (.error e, st)
  | none =>
      let ks := keyToString key
      match storeFind st.data ks with
      | some value =>
          let c := check o now ks st
          if c.1 then
            (.ok (some value.v),
              ⟨c.2.data, { c.2.stats with hits := c.2.stats.hits + 1 }⟩)
          else
            (.ok none,
              ⟨c.2.data, { c.2.stats with misses := c.2.stats.misses + 1 }⟩)
      | none =>
          (.ok none,
            ⟨st.data, { st.stats with misses := st.stats.misses + 1 }⟩)

/-- Model of NodeCache.has: no key validation; the data lookup short-circuits
before check when the key is absent. -/
def has (o : Opts) (now : Int) (key : JsVal) (st : CacheState) :
    Bool × CacheState :=
  let ks := keyToString key
  match storeFind st.data ks with
  | none => (false, st)
  | some _ => check o now ks st

/-- Model of NodeCache.set, src/node_cache.ts lines 223-266, with
forceString = false (normalizedValue = value).  The capacity check precedes
the key-type throw, exactly as in the source. -/
def set (o : Opts) (now : Int) (key value : JsVal) (ttl : Option Int)
    (st : CacheState) : Except CacheErr Bool × CacheState :=
  let err := isInvalidKey key
  if o.maxKeys > -1 ∧ st.stats.keys ≥ o.maxKeys then
    (.error .ECACHEFULL, st)
  else
    match err with
    | some e => (.error e, st)
    | none =>
        let ks := keyToString key
        let old := storeFind st.data ks
        let stats1 :=
          match old with
          | some oldE =>
              { st.stats with vsize := st.stats.vsize - getValLength o oldE.v }
          | none => st.stats
        let data1 := alistSet st.data ks (wrap o now value ttl)
        let stats2 := { stats1 with vsize := stats1.vsize + getValLength o value }
        let stats3 :=
          match old with
          | some _ => stats2
          | none =>
              { stats2 with
                  ksize := stats2.ksize + getKeyLength key
                  keys := stats2.keys + 1 }
        (.ok true, ⟨data1, stats3⟩)

/-- Model of NodeCache.del on a list of keys (a single key is the singleton
list).  A key-type error aborts the loop, keeping the deletions already
performed. -/
def delGo (o : Opts) : List JsVal → CacheState → Nat →
    Except CacheErr Nat × CacheState
  | [], st, count => (.ok count, st)
  | k :: rest, st, count =>
      match isInvalidKey k with
      | some e => (.error e, st)
      | none =>
          let r := delKeyStr o st (keyToString k)
          delGo o rest r.2 (count + r.1)

def del (o : Opts) (keys : List JsVal) (st : CacheState) :
    Except CacheErr Nat × CacheState :=
  delGo o keys st 0

/-- Model of NodeCache.take, src/node_cache.ts lines 420-426: get, then del
unless the returned value is strictly equal to null (a miss returns
undefined, which is not null, so del is also called on a miss and is a
no-op there). -/
def take (o : Opts) (now : Int) (key : JsVal) (st : CacheState) :
    Except CacheErr JsVal × CacheState :=
  match get o now key st with
  | (.error e, st1) => (.error e, st1)
  | (.ok r, st1) =>
      let retv := r.getD .vundef
      if retv.isNull then (.ok retv, st1)
      else (.ok retv, (delKeyStr o st1 (keyToString key)).2)

/-- Model of NodeCache.ttl, src/node_cache.ts lines 449-477.  The ttl
argument is `none` when omitted; a falsy ttl (omitted or 0) is replaced by
stdTTL; a falsy key returns false before the key-type throw and before any
store access; a live entry is rewrapped (value unchanged, no stats change)
when the effective ttl is nonnegative, deleted otherwise. -/
def ttl (o : Opts) (now : Int) (key : JsVal) (ttlArg : Option Int)
    (st : CacheState) : Except CacheErr Bool × CacheState :=
  let err := isInvalidKey key
  let t : Int :=
    match ttlArg with
    | none => o.stdTTL
    | some n => if n = 0 then o.stdTTL else n
  if !key.truthy then (.ok false, st)
  else
    match err with
    | some e => (.error e, st)
    | none =>
        let ks := keyToString key
        match storeFind st.data ks with
        | none => (.ok false, st)
        | some dataValue =>
            let c := check o now ks st
            if c.1 then
              if t ≥ 0 then
                (.ok true, ⟨alistSet c.2.data ks (wrap o now dataValue.v (some t)),
                  c.2.stats⟩)
              else
                (.ok true, (delKeyStr o c.2 ks).2)
            else (.ok false, c.2)

/-- Model of NodeCache.getTtl, src/node_cache.ts lines 495-514: a falsy key
returns undefined before the key-type throw and before any store access;
otherwise the absolute expiry timestamp of a live entry (re-read after the
check, which on the true branch leaves the entry in place). -/
def getTtl (o : Opts) (now : Int) (key : JsVal) (st : CacheState) :
    Except CacheErr (Option Int) × CacheState :=
  let err := isInvalidKey key
  if !key.truthy then (.ok none, st)
  else
    match err with
    | some e => (.error e, st)
    | none =>
        let ks := keyToString key
        match storeFind st.data ks with
        | none => (.ok none, st)
        | some _ =>
            let c := check o now ks st
            if c.1 then
              match storeFind c.2.data ks with
              | some e2 => (.ok (some e2.t), c.2)
              | none => (.ok none, c.2)
            else (.ok none, c.2)

/-- Model of NodeCache.mget (the keys argument is already an array; the
EKEYSTYPE throw for non-arrays is outside the model).  Accumulates the found
entries in a result object, bumping hits and misses per key; a key-type error
aborts with the stats mutations already performed. -/
def mgetGo (o : Opts) (now : Int) : List JsVal → CacheState →
    List (String × JsVal) →
    Except CacheErr (List (String × JsVal)) × CacheState
  | [], st, acc => (.ok acc, st)
  | k :: rest, st, acc =>
      match isInvalidKey k with
      | some e => (.error e, st)
      | none =>
          let ks := keyToString k
          match storeFind st.data ks with
          | some value =>
              let c := check o now ks st
              if c.1 then
                mgetGo o now rest
                  ⟨c.2.data, { c.2.stats with hits := c.2.stats.hits + 1 }⟩
                  (alistSet acc ks value.v)
              else
                mgetGo o now rest
                  ⟨c.2.data, { c.2.stats with misses := c.2.stats.misses + 1 }⟩
                  acc
          | none =>
              mgetGo o now rest
                ⟨st.data, { st.stats with misses := st.stats.misses + 1 }⟩
                acc

def mget (o : Opts) (now : Int) (keys : List JsVal) (st : CacheState) :
    Except CacheErr (List (String × JsVal)) × CacheState :=
  mgetGo o now keys st []

/-- One key/value/ttl triple of an mset batch; the ttl field is kept as a raw
JS value because mset validates its runtime type. -/
structure MsetPair where
  key : JsVal
  val : JsVal
  ttl : JsVal
deriving Repr

/-- The validation loop of NodeCache.mset: per pair, first the ttl check
(throws ETTLTYPE when the ttl is truthy and not a number), then the
key-type check. -/
def msetValidate : List MsetPair → Option CacheErr
  | [] => none
  | p :: rest =>
      if p.ttl.truthy && (jsTypeof p.ttl != "number") then some .ETTLTYPE
      else
        match isInvalidKey p.key with
        | some e => some e
        | none => msetValidate rest

/-- Conversion of a validated mset ttl to the ttl argument of set: numbers
pass through; the remaining (falsy, or defaulted undefined) values behave
like the standard-TTL branch of wrap. -/
def ttlArgOf : JsVal → Option Int
  | .vnum n => some n
  | _ => none

/-- The write loop of NodeCache.mset: plain set per pair; a throw mid-batch
keeps the writes already performed. -/
def msetWrite (o : Opts) (now : Int) : List MsetPair → CacheState →
    Except CacheErr Bool × CacheState
  | [], st => (.ok true, st)
  | p :: rest, st =>
      match set o now p.key p.val (ttlArgOf p.ttl) st with
      | (.error e, st1) => (.error e, st1)
      | (.ok _, st1) => msetWrite o now rest st1

/-- Model of NodeCache.mset, src/node_cache.ts lines 315-353: batch capacity
pre-check, then whole-batch validation, then the writes. -/
def mset (o : Opts) (now : Int) (pairs : List MsetPair) (st : CacheState) :
    Except CacheErr Bool × CacheState :=
  if o.maxKeys > -1 ∧ st.stats.keys + (pairs.length : Int) ≥ o.maxKeys then
    (.error .ECACHEFULL, st)
  else
    match msetValidate pairs with
    | some e => (.error e, st)
    | none => msetWrite o now pairs st

/-- Model of NodeCache.flushAll: empty store, zeroed stats (timer restart not
modelled). -/
def flushAll (_st : CacheState) : CacheState := initCache

/-- Model of NodeCache.flushStats: zero all five counters, keep the data. -/
def flushStats (st : CacheState) : CacheState := ⟨st.data, zeroStats⟩

end NodeCache

/-! ## The operations of claim C3 as an inductive, for quantifying over
operation sequences. -/

/-- One public mutating operation of the base cache, with the clock value at
which it runs. -/
inductive CacheOp where
  | opSet (now : Int) (key value : JsVal) (ttl : Option Int)
  | opMset (now : Int) (pairs : List NodeCache.MsetPair)
  | opDel (keys : List JsVal)
  | opTake (now : Int) (key : JsVal)
  | opTtl (now : Int) (key : JsVal) (ttlArg : Option Int)
  | opFlushAll

/-- Apply one operation, keeping the state a throw leaves behind. -/
def applyOp (o : Opts) (st : CacheState) : CacheOp → CacheState
  | .opSet now k v ttl => (NodeCache.set o now k v ttl st).2
  | .opMset now pairs => (NodeCache.mset o now pairs st).2
  | .opDel keys => (NodeCache.del o keys st).2
  | .opTake now k => (NodeCache.take o now k st).2
  | .opTtl now k ttlArg => (NodeCache.ttl o now k ttlArg st).2
  | .opFlushAll => NodeCache.flushAll st

def runOps (o : Opts) (ops : List CacheOp) (st : CacheState) : CacheState :=
  ops.foldl (applyOp o) st

/-- Sum of the measured key lengths of the store (the quantity tracked by
stats.ksize). -/
def ksizeOf (s : Store) : Int := (s.map (fun p => (p.1.length : Int))).sum

/-- Sum of the measured value sizes of the store (the quantity tracked by
stats.vsize). -/
def vsizeOf (o : Opts) (s : Store) : Int :=
  (s.map (fun p => NodeCache.getValLength o p.2.v)).sum

/-- The bookkeeping invariant of claim C3: the counters agree with the
physical store, and the hit/miss counters are non-negative. -/
def statsConsistent (o : Opts) (st : CacheState) : Prop :=
  st.stats.keys = (st.data.length : Int) ∧
  st.stats.ksize = ksizeOf st.data ∧
  st.stats.vsize = vsizeOf o st.data ∧
  0 ≤ st.stats.hits ∧ 0 ≤ st.stats.misses

/-! ## The Refresh-Ahead layer (src/snow_cache.ts) -/

namespace SnowCache

/-- The derived configuration of a SnowCache: the options handed to the
results cache (super) plus the computed ttr and retryPause. -/
structure SnowOpts where
  resultOpts : Opts
  ttr : Int
  retryPause : Int
deriving Repr, DecidableEq

/-- The options of the private arguments cache built in the constructor:
stdTTL = ttr, everything else left at the NodeCache defaults (in particular
maxKeys = -1, so that cache is never full). -/
def argsCacheOpts (ttr : Int) : Opts := { defaultOpts with stdTTL := ttr }

/-- An error escaping a SnowCache code path: either a cache error thrown by
a NodeCache operation or a producer (refreshMethod) rejection, the latter
identified by its message. -/
inductive JsErr where
  | cacheErr (e : CacheErr)
  | producerErr (msg : String)
deriving Repr, DecidableEq

/-- A notification emitted by the refresh layer. -/
inductive SnowEvent where
  | refreshError (e : JsErr) (key : String) (args : JsVal)
deriving Repr

/-- The state of one SnowCache: the results cache (the inherited NodeCache),
the private arguments cache, and the keys of the in-flight call registry
(_runningCalls). -/
structure SnowState where
  results : CacheState
  argsCache : CacheState
  running : List String
deriving Repr

/-- The catch block of SnowCache.refreshEntry, src/snow_cache.ts lines
83-89: read the absolute expiry of the result entry; when it is truthy and
retryPause*1000 is below it, re-arm the args entry with TTL retryPause; then
emit refresh_error.  A throw inside the catch would propagate, hence the
Except result. -/
def catchBody (so : SnowOpts) (now : Int) (key : String) (args : JsVal)
    (err : JsErr) (st : SnowState) :
    Except JsErr (SnowState × List SnowEvent) :=
  let g := NodeCache.getTtl so.resultOpts now (.vstr key) st.results
  match g.1 with
  | .error e => .error (.cacheErr e)
  | .ok tl =>
      let st1 : SnowState := { st with results := g.2 }
      let doRearm : Bool :=
        match tl with
        | some t => (t != 0) && decide (so.retryPause * 1000 < t)
        | none => false
      if doRearm then
        let s2 := NodeCache.set (argsCacheOpts so.ttr) now (.vstr key) args
          (some so.retryPause) st1.argsCache
        match s2.1 with
        | .ok _ =>
            .ok ({ st1 with argsCache := s2.2 }, [.refreshError err key args])
        | .error e => .error (.cacheErr e)
      else .ok (st1, [.refreshError err key args])

/-- Model of SnowCache.refreshEntry, src/snow_cache.ts lines 79-90.  The
resolution of the produce call is passed in as `outcome`.  On success the
result is stored through super.set; a throw of that set lands in the same
catch block as a producer rejection, because the set sits inside the try. -/
def refreshEntry (so : SnowOpts) (now : Int) (key : String) (args : JsVal)
    (outcome : Except String JsVal) (st : SnowState) :
    Except JsErr (SnowState × List SnowEvent) :=
  match outcome with
  | .ok v =>
      let s := NodeCache.set so.resultOpts now (.vstr key) v none st.results
      match s.1 with
      | .ok _ => .ok ({ st with results := s.2 }, [])
      | .error e => catchBody so now key args (.cacheErr e)
          { st with results := s.2 }
  | .error msg => catchBody so now key args (.producerErr msg) st

/-- Lines 62-66 of SnowCache.call: arm the next background refresh when no
args entry is live, then return the response. -/
def armRefresh (so : SnowOpts) (now : Int) (ks : String) (args : JsVal)
    (response : JsVal) (st : SnowState) :
    Except JsErr JsVal × SnowState :=
  let h := NodeCache.has (argsCacheOpts so.ttr) now (.vstr ks) st.argsCache
  if h.1 then (.ok response, { st with argsCache := h.2 })
  else
    let s := NodeCache.set (argsCacheOpts so.ttr) now (.vstr ks) args none h.2
    match s.1 with
    | .ok _ => (.ok response, { st with argsCache := s.2 })
    | .error e => (.error (.cacheErr e), { st with argsCache := s.2 })

/-- Model of SnowCache.call, src/snow_cache.ts lines 43-67, for one caller
running without interleaving.  `outcome` is the resolution of the producer
promise for this key: when the caller becomes the leader it is the promise it
creates; when a call is already in flight, awaiting that registered promise
yields the same resolution.  A rejection of the awaited promise propagates;
the leader clears its registration in the finally block either way. -/
def call1 (so : SnowOpts) (now : Int) (key args : JsVal)
    (outcome : Except String JsVal) (st : SnowState) :
    Except JsErr JsVal × SnowState :=
  let ks := keyToString key
  let h := NodeCache.has so.resultOpts now key st.results
  if h.1 then
    let g := NodeCache.get so.resultOpts now key h.2
    match g.1 with
    | .error e => (.error (.cacheErr e), { st with results := g.2 })
    | .ok v? =>
        armRefresh so now ks args (v?.getD .vundef) { st with results := g.2 }
  else
    let st1 : SnowState := { st with results := h.2 }
    if ks ∈ st1.running then
      match outcome with
      | .ok v => armRefresh so now ks args v st1
      | .error msg => (.error (.producerErr msg), st1)
    else
      let st2 : SnowState := { st1 with running := ks :: st1.running }
      match outcome with
      | .error msg =>
          (.error (.producerErr msg),
            { st2 with running := st2.running.erase ks })
      | .ok v =>
          let s := NodeCache.set so.resultOpts now key v none st2.results
          match s.1 with
          | .error e =>
              (.error (.cacheErr e),
                { st2 with results := s.2, running := st2.running.erase ks })
          | .ok _ =>
              armRefresh so now ks args v
                { st2 with results := s.2, running := st2.running.erase ks }

end SnowCache

/-! ## Call coalescing (claim C2): the interleaving model.

Node runs JavaScript with run-to-completion semantics: the synchronous entry
segment of SnowCache.call, from the super.has check through the registration
of the new promise in _runningCalls (lines 45-54), executes atomically, and
concurrency is exactly the interleaving of such segments.  A scenario with N
concurrent callers for one key is therefore: the N entry segments run in some
order, then the single producer promise resolves and every continuation
receives that resolution. -/

namespace Coalesce

/-- The per-key global state seen by the entry segment of call: the live
result entry for the key, whether _runningCalls holds a promise for it, and
how often refreshMethod has been invoked. -/
structure CoalState where
  result : Option JsVal
  inflight : Bool
  producerCalls : Nat
deriving Repr

/-- What a caller is left doing after its entry segment. -/
inductive CallerRole where
  | hit (v : JsVal)
  | waiter
  | leader
deriving Repr

/-- The atomic entry segment of SnowCache.call (lines 45-54): a live result
is returned at once; otherwise an in-flight promise is awaited; otherwise
this caller invokes refreshMethod and registers the promise. -/
def callArrive (g : CoalState) : CoalState × CallerRole :=
  match g.result with
  | some v => (g, .hit v)
  | none =>
      if g.inflight then (g, .waiter)
      else ({ g with inflight := true, producerCalls := g.producerCalls + 1 },
        .leader)

/-- n callers execute their entry segments in arrival order. -/
def arriveMany : Nat → CoalState → CoalState × List CallerRole
  | 0, g => (g, [])
  | n + 1, g =>
      let a := callArrive g
      let rest := arriveMany n a.1
      (rest.1, a.2 :: rest.2)

/-- The value a caller ends up returning once the single producer promise
resolves with v: the leader and every waiter obtain the resolution itself, a
caller that hit the cache already had its value. -/
def callerValue (v : JsVal) : CallerRole → JsVal
  | .hit w => w
  | .waiter => v
  | .leader => v

end Coalesce

/-! ## Association-list lemmas -/

section StoreLemmas

variable {β : Type}

theorem storeFind_alistSet_self (s : List (String × β)) (k : String) (e : β) :
    storeFind (alistSet s k e) k = some e := by
  induction s with
  | nil => simp [alistSet, storeFind]
  | cons p rest ih =>
      by_cases h : p.1 = k
      · simp [alistSet, storeFind, h]
      · simp [alistSet, storeFind, h, ih]

theorem storeFind_alistSet_other (s : List (String × β)) (k k2 : String) (e : β)
    (h : k2 ≠ k) : storeFind (alistSet s k e) k2 = storeFind s k2 := by
  have hk : ¬(k = k2) := fun h2 => h h2.symm
  induction s with
  | nil =>
      simp only [alistSet, storeFind]
      rw [if_neg hk]
  | cons p rest ih =>
      by_cases hp : p.1 = k
      · simp only [alistSet, if_pos hp, storeFind, hp]
        simp only [if_neg hk]
      · simp only [alistSet, if_neg hp, storeFind]
        by_cases hq : p.1 = k2 <;> simp [hq, ih]

theorem length_alistSet_of_find_none (s : List (String × β)) (k : String) (e : β)
    (h : storeFind s k = none) : (alistSet s k e).length = s.length + 1 := by
  induction s with
  | nil => simp [alistSet]
  | cons p rest ih =>
      simp only [storeFind] at h
      by_cases hp : p.1 = k
      · simp [hp] at h
      · simp only [alistSet, if_neg hp, List.length_cons]
        rw [ih (by simpa [hp] using h)]

theorem length_alistSet_of_find_some (s : List (String × β)) (k : String)
    (e e0 : β) (h : storeFind s k = some e0) :
    (alistSet s k e).length = s.length := by
  induction s with
  | nil => simp [storeFind] at h
  | cons p rest ih =>
      simp only [storeFind] at h
      by_cases hp : p.1 = k
      · simp [alistSet, hp]
      · simp only [alistSet, if_neg hp, List.length_cons]
        rw [ih (by simpa [hp] using h)]

theorem length_storeErase_of_find_some (s : List (String × β)) (k : String)
    (e0 : β) (h : storeFind s k = some e0) :
    s.length = (storeErase s k).length + 1 := by
  induction s with
  | nil => simp [storeFind] at h
  | cons p rest ih =>
      simp only [storeFind] at h
      by_cases hp : p.1 = k
      · simp [storeErase, hp]
      · simp only [storeErase, if_neg hp, List.length_cons]
        rw [ih (by simpa [hp] using h)]

end StoreLemmas

theorem ksizeOf_alistSet_of_find_none (s : Store) (k : String) (e : Entry)
    (h : storeFind s k = none) :
    ksizeOf (alistSet s k e) = ksizeOf s + (k.length : Int) := by
  induction s with
  | nil => simp [alistSet, ksizeOf]
  | cons p rest ih =>
      simp only [storeFind] at h
      by_cases hp : p.1 = k
      · simp [hp] at h
      · simp only [alistSet, if_neg hp, ksizeOf, List.map_cons, List.sum_cons] at *
        rw [ih (by simpa [hp] using h)]
        ring

theorem ksizeOf_alistSet_of_find_some (s : Store) (k : String) (e e0 : Entry)
    (h : storeFind s k = some e0) :
    ksizeOf (alistSet s k e) = ksizeOf s := by
  induction s with
  | nil => simp [storeFind] at h
  | cons p rest ih =>
      simp only [storeFind] at h
      by_cases hp : p.1 = k
      · simp only [alistSet, if_pos hp, ksizeOf, List.map_cons, List.sum_cons]
        rw [hp]
      · simp only [alistSet, if_neg hp, ksizeOf, List.map_cons, List.sum_cons] at *
        rw [ih (by simpa [hp] using h)]

theorem ksizeOf_storeErase_of_find_some (s : Store) (k : String) (e0 : Entry)
    (h : storeFind s k = some e0) :
    ksizeOf (storeErase s k) = ksizeOf s - (k.length : Int) := by
  induction s with
  | nil => simp [storeFind] at h
  | cons p rest ih =>
      simp only [storeFind] at h
      by_cases hp : p.1 = k
      · simp only [storeErase, if_pos hp, ksizeOf, List.map_cons, List.sum_cons]
        rw [hp]
        ring
      · simp only [storeErase, if_neg hp, ksizeOf, List.map_cons, List.sum_cons] at *
        rw [ih (by simpa [hp] using h)]
        ring

theorem vsizeOf_alistSet_of_find_none (o : Opts) (s : Store) (k : String)
    (e : Entry) (h : storeFind s k = none) :
    vsizeOf o (alistSet s k e) = vsizeOf o s + NodeCache.getValLength o e.v := by
  induction s with
  | nil => simp [alistSet, vsizeOf]
  | cons p rest ih =>
      simp only [storeFind] at h
      by_cases hp : p.1 = k
      · simp [hp] at h
      · simp only [alistSet, if_neg hp, vsizeOf, List.map_cons, List.sum_cons] at *
        rw [ih (by simpa [hp] using h)]
        ring

theorem vsizeOf_alistSet_of_find_some (o : Opts) (s : Store) (k : String)
    (e e0 : Entry) (h : storeFind s k = some e0) :
    vsizeOf o (alistSet s k e) =
      vsizeOf o s - NodeCache.getValLength o e0.v + NodeCache.getValLength o e.v := by
  induction s with
  | nil => simp [storeFind] at h
  | cons p rest ih =>
      simp only [storeFind] at h
      by_cases hp : p.1 = k
      · rw [if_pos hp] at h
        injection h with h
        subst h
        simp only [alistSet, if_pos hp, vsizeOf, List.map_cons, List.sum_cons]
        ring
      · simp only [alistSet, if_neg hp, vsizeOf, List.map_cons, List.sum_cons] at *
        rw [ih (by simpa [hp] using h)]
        ring

theorem vsizeOf_storeErase_of_find_some (o : Opts) (s : Store) (k : String)
    (e0 : Entry) (h : storeFind s k = some e0) :
    vsizeOf o (storeErase s k) = vsizeOf o s - NodeCache.getValLength o e0.v := by
  induction s with
  | nil => simp [storeFind] at h
  | cons p rest ih =>
      simp only [storeFind] at h
      by_cases hp : p.1 = k
      · rw [if_pos hp] at h
        injection h with h
        subst h
        simp only [storeErase, if_pos hp, vsizeOf, List.map_cons, List.sum_cons]
        ring
      · simp only [storeErase, if_neg hp, vsizeOf, List.map_cons, List.sum_cons] at *
        rw [ih (by simpa [hp] using h)]
        ring

/-! ## Preservation of the bookkeeping invariant (claim C3) -/

theorem wrap_v (o : Opts) (now : Int) (v : JsVal) (ttl : Option Int) :
    (NodeCache.wrap o now v ttl).v = v := rfl

theorem init_statsConsistent (o : Opts) : statsConsistent o initCache := by
  refine ⟨rfl, rfl, rfl, le_refl 0, le_refl 0⟩

theorem check_true_state (o : Opts) (now : Int) (ks : String) (st : CacheState)
    (h : (NodeCache.check o now ks st).1 = true) :
    (NodeCache.check o now ks st).2 = st := by
  unfold NodeCache.check at *
  cases hfind : storeFind st.data ks with
  | none => rfl
  | some e =>
      simp only [hfind] at h ⊢
      by_cases hex : e.t ≠ 0 ∧ e.t < now
      · simp only [if_pos hex] at h ⊢
        cases hdel : o.deleteOnExpire with
        | true => simp [hdel] at h
        | false => simp [hdel]
      · simp only [if_neg hex]

theorem set_statsConsistent (o : Opts) (now : Int) (k v : JsVal)
    (ttl : Option Int) (st : CacheState) (h : statsConsistent o st) :
    statsConsistent o (NodeCache.set o now k v ttl st).2 := by
  obtain ⟨h1, h2, h3, h4, h5⟩ := h
  unfold NodeCache.set
  by_cases hcap : o.maxKeys > -1 ∧ st.stats.keys ≥ o.maxKeys
  · simp only [if_pos hcap]
    exact ⟨h1, h2, h3, h4, h5⟩
  · simp only [if_neg hcap]
    cases hk : NodeCache.isInvalidKey k with
    | some e => exact ⟨h1, h2, h3, h4, h5⟩
    | none =>
        cases hfind : storeFind st.data (keyToString k) with
        | none =>
            simp only [hfind]
            refine ⟨?_, ?_, ?_, h4, h5⟩
            · rw [length_alistSet_of_find_none _ _ _ hfind]
              push_cast
              rw [h1]
            · rw [ksizeOf_alistSet_of_find_none _ _ _ hfind, h2]
              rfl
            · rw [vsizeOf_alistSet_of_find_none _ _ _ _ hfind, wrap_v, h3]
        | some e0 =>
            simp only [hfind]
            refine ⟨?_, ?_, ?_, h4, h5⟩
            · rw [length_alistSet_of_find_some _ _ _ _ hfind, h1]
            · rw [ksizeOf_alistSet_of_find_some _ _ _ _ hfind, h2]
            · rw [vsizeOf_alistSet_of_find_some _ _ _ _ _ hfind, wrap_v, h3]

theorem delKeyStr_statsConsistent (o : Opts) (st : CacheState) (ks : String)
    (h : statsConsistent o st) :
    statsConsistent o (NodeCache.delKeyStr o st ks).2 := by
  obtain ⟨h1, h2, h3, h4, h5⟩ := h
  unfold NodeCache.delKeyStr
  cases hfind : storeFind st.data ks with
  | none => exact ⟨h1, h2, h3, h4, h5⟩
  | some e0 =>
      refine ⟨?_, ?_, ?_, h4, h5⟩
      · have := length_storeErase_of_find_some _ _ _ hfind
        rw [h1, this]
        push_cast
        ring
      · rw [ksizeOf_storeErase_of_find_some _ _ _ hfind, h2]
      · rw [vsizeOf_storeErase_of_find_some _ _ _ _ hfind, h3]

theorem check_statsConsistent (o : Opts) (now : Int) (ks : String)
    (st : CacheState) (h : statsConsistent o st) :
    statsConsistent o (NodeCache.check o now ks st).2 := by
  unfold NodeCache.check
  cases hfind : storeFind st.data ks with
  | none => exact h
  | some e =>
      by_cases hex : e.t ≠ 0 ∧ e.t < now
      · simp only [if_pos hex]
        cases hdel : o.deleteOnExpire with
        | true =>
            simp only [if_pos rfl]
            exact delKeyStr_statsConsistent o st ks h
        | false => simpa using h
      · simp only [if_neg hex]
        exact h

theorem get_statsConsistent (o : Opts) (now : Int) (k : JsVal)
    (st : CacheState) (h : statsConsistent o st) :
    statsConsistent o (NodeCache.get o now k st).2 := by
  have hc := check_statsConsistent o now (keyToString k) st h
  obtain ⟨h1, h2, h3, h4, h5⟩ := h
  obtain ⟨hc1, hc2, hc3, hc4, hc5⟩ := hc
  unfold NodeCache.get
  cases hk : NodeCache.isInvalidKey k with
  | some e => exact ⟨h1, h2, h3, h4, h5⟩
  | none =>
      cases hfind : storeFind st.data (keyToString k) with
      | none =>
          simp only [hfind]
          refine ⟨h1, h2, h3, h4, ?_⟩
          show 0 ≤ st.stats.misses + 1
          omega
      | some value =>
          by_cases hck : (NodeCache.check o now (keyToString k) st).1 = true
          · simp only [hfind, hck, if_pos]
            refine ⟨hc1, hc2, hc3, ?_, hc5⟩
            show 0 ≤ (NodeCache.check o now (keyToString k) st).2.stats.hits + 1
            omega
          · simp only [Bool.not_eq_true] at hck
            simp only [hfind, hck]
            rw [if_neg (show ¬(false = true) from Bool.false_ne_true)]
            refine ⟨hc1, hc2, hc3, hc4, ?_⟩
            show 0 ≤ (NodeCache.check o now (keyToString k) st).2.stats.misses + 1
            omega

theorem take_statsConsistent (o : Opts) (now : Int) (k : JsVal)
    (st : CacheState) (h : statsConsistent o st) :
    statsConsistent o (NodeCache.take o now k st).2 := by
  have hg := get_statsConsistent o now k st h
  unfold NodeCache.take
  cases hget : NodeCache.get o now k st with
  | mk r st1 =>
      cases r with
      | error e =>
          have : st1 = (NodeCache.get o now k st).2 := by rw [hget]
          rw [this] at *
          exact hg
      | ok rv =>
          have hst1 : st1 = (NodeCache.get o now k st).2 := by rw [hget]
          subst hst1
          by_cases hnull : (rv.getD JsVal.vundef).isNull = true
          · simp only [hnull, if_pos]
            exact hg
          · simp only [Bool.not_eq_true] at hnull
            simp only [hnull]
            exact delKeyStr_statsConsistent o _ _ hg

theorem ttl_statsConsistent (o : Opts) (now : Int) (k : JsVal)
    (ttlArg : Option Int) (st : CacheState) (h : statsConsistent o st) :
    statsConsistent o (NodeCache.ttl o now k ttlArg st).2 := by
  have hc := check_statsConsistent o now (keyToString k) st h
  unfold NodeCache.ttl
  by_cases htr : k.truthy = true
  · rw [if_neg (show ¬((!k.truthy) = true) by simp [htr])]
    cases hk : NodeCache.isInvalidKey k with
    | some e => exact h
    | none =>
        cases hfind : storeFind st.data (keyToString k) with
        | none =>
            simp only [hfind]
            exact h
        | some dataValue =>
            by_cases hck : (NodeCache.check o now (keyToString k) st).1 = true
            · have hcs := check_true_state o now (keyToString k) st hck
              simp only [hfind, hck, if_pos, hcs]
              by_cases ht : (match ttlArg with
                  | none => o.stdTTL
                  | some n => if n = 0 then o.stdTTL else n) ≥ 0
              · simp only [if_pos ht]
                obtain ⟨h1, h2, h3, h4, h5⟩ := h
                refine ⟨?_, ?_, ?_, h4, h5⟩
                · rw [length_alistSet_of_find_some _ _ _ _ hfind, h1]
                · rw [ksizeOf_alistSet_of_find_some _ _ _ _ hfind, h2]
                · rw [vsizeOf_alistSet_of_find_some _ _ _ _ _ hfind, wrap_v, h3]
                  ring
              · simp only [if_neg ht]
                exact delKeyStr_statsConsistent o st _ h
            · simp only [Bool.not_eq_true] at hck
              simp only [hfind, hck]
              rw [if_neg (show ¬(false = true) from Bool.false_ne_true)]
              exact hc
  · simp only [Bool.not_eq_true] at htr
    rw [if_pos (show (!k.truthy) = true by simp [htr])]
    exact h

theorem msetWrite_statsConsistent (o : Opts) (now : Int)
    (pairs : List NodeCache.MsetPair) :
    ∀ st : CacheState, statsConsistent o st →
      statsConsistent o (NodeCache.msetWrite o now pairs st).2 := by
  induction pairs with
  | nil => intro st h; exact h
  | cons p rest ih =>
      intro st h
      have hset := set_statsConsistent o now p.key p.val
        (NodeCache.ttlArgOf p.ttl) st h
      unfold NodeCache.msetWrite
      cases hs : NodeCache.set o now p.key p.val (NodeCache.ttlArgOf p.ttl) st with
      | mk r st1 =>
          have hst1 : st1 = (NodeCache.set o now p.key p.val
              (NodeCache.ttlArgOf p.ttl) st).2 := by rw [hs]
          cases r with
          | error e =>
              subst hst1
              exact hset
          | ok b =>
              subst hst1
              exact ih _ hset

theorem mset_statsConsistent (o : Opts) (now : Int)
    (pairs : List NodeCache.MsetPair) (st : CacheState)
    (h : statsConsistent o st) :
    statsConsistent o (NodeCache.mset o now pairs st).2 := by
  unfold NodeCache.mset
  by_cases hcap : o.maxKeys > -1 ∧ st.stats.keys + (pairs.length : Int) ≥ o.maxKeys
  · simp only [if_pos hcap]
    exact h
  · simp only [if_neg hcap]
    cases hv : NodeCache.msetValidate pairs with
    | some e => exact h
    | none => exact msetWrite_statsConsistent o now pairs st h

theorem delGo_statsConsistent (o : Opts) (keys : List JsVal) :
    ∀ (st : CacheState) (count : Nat), statsConsistent o st →
      statsConsistent o (NodeCache.delGo o keys st count).2 := by
  induction keys with
  | nil => intro st count h; exact h
  | cons k rest ih =>
      intro st count h
      unfold NodeCache.delGo
      cases hk : NodeCache.isInvalidKey k with
      | some e => exact h
      | none => exact ih _ _ (delKeyStr_statsConsistent o st (keyToString k) h)

theorem del_statsConsistent (o : Opts) (keys : List JsVal) (st : CacheState)
    (h : statsConsistent o st) :
    statsConsistent o (NodeCache.del o keys st).2 :=
  delGo_statsConsistent o keys st 0 h

theorem applyOp_statsConsistent (o : Opts) (st : CacheState) (op : CacheOp)
    (h : statsConsistent o st) : statsConsistent o (applyOp o st op) := by
  cases op with
  | opSet now k v ttl => exact set_statsConsistent o now k v ttl st h
  | opMset now pairs => exact mset_statsConsistent o now pairs st h
  | opDel keys => exact del_statsConsistent o keys st h
  | opTake now k => exact take_statsConsistent o now k st h
  | opTtl now k ttlArg => exact ttl_statsConsistent o now k ttlArg st h
  | opFlushAll => exact init_statsConsistent o

theorem runOps_statsConsistent (o : Opts) (ops : List CacheOp) :
    ∀ st : CacheState, statsConsistent o st →
      statsConsistent o (runOps o ops st) := by
  induction ops with
  | nil => intro st h; exact h
  | cons op rest ih =>
      intro st h
      exact ih _ (applyOp_statsConsistent o st op h)

theorem getValLength_nonneg (o : Opts) (hobj : 0 ≤ o.objectValueSize)
    (harr : 0 ≤ o.arrayValueSize) (v : JsVal) :
    0 ≤ NodeCache.getValLength o v := by
  cases v <;> simp [NodeCache.getValLength] <;> positivity

theorem ksizeOf_nonneg (s : Store) : 0 ≤ ksizeOf s := by
  induction s with
  | nil => simp [ksizeOf]
  | cons p rest ih =>
      simp only [ksizeOf, List.map_cons, List.sum_cons] at *
      positivity

theorem vsizeOf_nonneg (o : Opts) (hobj : 0 ≤ o.objectValueSize)
    (harr : 0 ≤ o.arrayValueSize) (s : Store) : 0 ≤ vsizeOf o s := by
  induction s with
  | nil => simp [vsizeOf]
  | cons p rest ih =>
      simp only [vsizeOf, List.map_cons, List.sum_cons] at *
      have := getValLength_nonneg o hobj harr p.2.v
      omega

/-! ## Behavioural helper lemmas -/

theorem set_ok_find (o : Opts) (now : Int) (key v : JsVal) (ttl : Option Int)
    (st : CacheState) (hkey : NodeCache.isInvalidKey key = none)
    (hcap : ¬(o.maxKeys > -1 ∧ st.stats.keys ≥ o.maxKeys)) :
    (NodeCache.set o now key v ttl st).1 = .ok true ∧
    (NodeCache.set o now key v ttl st).2.data =
      alistSet st.data (keyToString key) (NodeCache.wrap o now v ttl) := by
  unfold NodeCache.set
  rw [if_neg hcap]
  simp only [hkey]
  cases hfind : storeFind st.data (keyToString key) <;>
    exact ⟨by simp only [hfind], by simp only [hfind]⟩

theorem check_of_live (o : Opts) (now : Int) (ks : String) (st : CacheState)
    (e : Entry) (hfind : storeFind st.data ks = some e)
    (hlive : ¬(e.t ≠ 0 ∧ e.t < now)) :
    NodeCache.check o now ks st = (true, st) := by
  unfold NodeCache.check
  simp only [hfind, if_neg hlive]

theorem check_of_expired_no_delete (o : Opts) (now : Int) (ks : String)
    (st : CacheState) (e : Entry) (hfind : storeFind st.data ks = some e)
    (hdel : o.deleteOnExpire = false) (ht : e.t ≠ 0) (hlt : e.t < now) :
    NodeCache.check o now ks st = (true, st) := by
  unfold NodeCache.check
  simp only [hfind, if_pos (And.intro ht hlt), hdel]
  rw [if_neg (show ¬(false = true) from Bool.false_ne_true)]

theorem get_hit (o : Opts) (now : Int) (key : JsVal) (st : CacheState)
    (e : Entry) (hkey : NodeCache.isInvalidKey key = none)
    (hfind : storeFind st.data (keyToString key) = some e)
    (hch : NodeCache.check o now (keyToString key) st = (true, st)) :
    NodeCache.get o now key st =
      (.ok (some e.v),
        ⟨st.data, { st.stats with hits := st.stats.hits + 1 }⟩) := by
  unfold NodeCache.get
  simp only [hkey, hfind, hch]
  rw [if_pos trivial]

theorem get_miss_of_absent (o : Opts) (now : Int) (key : JsVal)
    (st : CacheState) (hkey : NodeCache.isInvalidKey key = none)
    (hfind : storeFind st.data (keyToString key) = none) :
    NodeCache.get o now key st =
      (.ok none,
        ⟨st.data, { st.stats with misses := st.stats.misses + 1 }⟩) := by
  unfold NodeCache.get
  simp only [hkey, hfind]

theorem has_of_found_check (o : Opts) (now : Int) (key : JsVal)
    (st : CacheState) (e : Entry)
    (hfind : storeFind st.data (keyToString key) = some e)
    (hch : NodeCache.check o now (keyToString key) st = (true, st)) :
    NodeCache.has o now key st = (true, st) := by
  unfold NodeCache.has
  simp only [hfind, hch]

theorem has_of_absent (o : Opts) (now : Int) (key : JsVal) (st : CacheState)
    (hfind : storeFind st.data (keyToString key) = none) :
    NodeCache.has o now key st = (false, st) := by
  unfold NodeCache.has
  simp only [hfind]

theorem isNull_eq_false_of_ne (v : JsVal) (h : v ≠ JsVal.vnull) :
    v.isNull = false := by
  cases v <;> first | rfl | exact absurd rfl h

theorem storeFind_eq_none_of_not_mem {β : Type} (s : List (String × β))
    (k : String) (h : k ∉ s.map Prod.fst) : storeFind s k = none := by
  induction s with
  | nil => rfl
  | cons p rest ih =>
      simp only [List.map_cons, List.mem_cons] at h
      push_neg at h
      unfold storeFind
      rw [if_neg (fun h2 => h.1 (h2.symm)), ih h.2]

theorem mem_map_fst_alistSet {β : Type} (s : List (String × β)) (k x : String)
    (e : β) (h : x ∈ (alistSet s k e).map Prod.fst) :
    x = k ∨ x ∈ s.map Prod.fst := by
  induction s with
  | nil =>
      simp only [alistSet, List.map_cons, List.map_nil, List.mem_singleton] at h
      exact Or.inl h
  | cons p rest ih =>
      by_cases hp : p.1 = k
      · simp only [alistSet, if_pos hp, List.map_cons, List.mem_cons] at h ⊢
        rcases h with h | h
        · exact Or.inl h
        · exact Or.inr (Or.inr h)
      · simp only [alistSet, if_neg hp, List.map_cons, List.mem_cons] at h ⊢
        rcases h with h | h
        · exact Or.inr (Or.inl h)
        · rcases ih h with h2 | h2
          · exact Or.inl h2
          · exact Or.inr (Or.inr h2)

theorem nodup_map_fst_alistSet {β : Type} (s : List (String × β)) (k : String)
    (e : β) (h : (s.map Prod.fst).Nodup) :
    ((alistSet s k e).map Prod.fst).Nodup := by
  induction s with
  | nil => simp [alistSet]
  | cons p rest ih =>
      simp only [List.map_cons, List.nodup_cons] at h
      by_cases hp : p.1 = k
      · simp only [alistSet, if_pos hp, List.map_cons, List.nodup_cons]
        exact ⟨hp ▸ h.1, h.2⟩
      · simp only [alistSet, if_neg hp, List.map_cons, List.nodup_cons]
        refine ⟨fun hmem => ?_, ih h.2⟩
        rcases mem_map_fst_alistSet rest k p.1 e hmem with h2 | h2
        · exact hp h2
        · exact h.1 h2

theorem storeFind_storeErase_self {β : Type} (s : List (String × β))
    (k : String) (h : (s.map Prod.fst).Nodup) :
    storeFind (storeErase s k) k = none := by
  induction s with
  | nil => rfl
  | cons p rest ih =>
      simp only [List.map_cons, List.nodup_cons] at h
      by_cases hp : p.1 = k
      · simp only [storeErase, if_pos hp]
        exact storeFind_eq_none_of_not_mem rest k (hp ▸ h.1)
      · simp only [storeErase, if_neg hp, storeFind, if_neg hp]
        exact ih h.2

/-! ## Claim theorems -/

/-- C10: for the valid falsy keys 0 and the empty string, ttl always returns
false and getTtl always returns undefined, without touching the store or the
stats, whatever entry may be stored under the canonical key — the falsy-key
guard short-circuits before the store lookup. -/
theorem C10_falsy_key_guard (o : Opts) (now : Int) (st : CacheState)
    (ttlArg : Option Int) :
    NodeCache.ttl o now (JsVal.vnum 0) ttlArg st = (.ok false, st) ∧
    NodeCache.ttl o now (JsVal.vstr "") ttlArg st = (.ok false, st) ∧
    NodeCache.getTtl o now (JsVal.vnum 0) st = (.ok none, st) ∧
    NodeCache.getTtl o now (JsVal.vstr "") st = (.ok none, st) :=
  ⟨rfl, rfl, rfl, rfl⟩

/-- C5: the stored absolute expiry of set(key, value, ttl) is 0 for ttl = 0,
now + ttl*1000 for a positive ttl, and for an omitted ttl the configured
default applies (0 when stdTTL = 0, otherwise now + stdTTL*1000); moreover a
never-expiring entry written with ttl = 0 is still returned by get at every
later time. -/
theorem C5_expiry_computation (o : Opts) (now now2 : Int) (key v : JsVal)
    (st : CacheState) (hkey : NodeCache.isInvalidKey key = none)
    (hcap : ¬(o.maxKeys > -1 ∧ st.stats.keys ≥ o.maxKeys)) :
    (∀ t : Int, t > 0 →
      storeFind (NodeCache.set o now key v (some t) st).2.data
        (keyToString key) = some ⟨now + t * 1000, v⟩) ∧
    storeFind (NodeCache.set o now key v (some 0) st).2.data
      (keyToString key) = some ⟨0, v⟩ ∧
    storeFind (NodeCache.set o now key v none st).2.data
      (keyToString key) =
      some ⟨if o.stdTTL = 0 then 0 else now + o.stdTTL * 1000, v⟩ ∧
    (NodeCache.get o now2 key (NodeCache.set o now key v (some 0) st).2).1 =
      .ok (some v) := by
  have hwrap0 : NodeCache.wrap o now v (some 0) = ⟨0, v⟩ := rfl
  refine ⟨?_, ?_, ?_, ?_⟩
  · intro t ht
    rw [(set_ok_find o now key v (some t) st hkey hcap).2]
    rw [storeFind_alistSet_self]
    simp only [NodeCache.wrap]
    rw [if_neg (by omega : ¬(t = 0))]
  · rw [(set_ok_find o now key v (some 0) st hkey hcap).2, hwrap0]
    exact storeFind_alistSet_self _ _ _
  · rw [(set_ok_find o now key v none st hkey hcap).2]
    rw [storeFind_alistSet_self]
    simp only [NodeCache.wrap]
  · have hfind : storeFind (NodeCache.set o now key v (some 0) st).2.data
        (keyToString key) = some ⟨0, v⟩ := by
      rw [(set_ok_find o now key v (some 0) st hkey hcap).2, hwrap0]
      exact storeFind_alistSet_self _ _ _
    have hch := check_of_live o now2 (keyToString key)
      (NodeCache.set o now key v (some 0) st).2 ⟨0, v⟩ hfind
      (by intro hc; exact hc.1 rfl)
    rw [get_hit o now2 key _ ⟨0, v⟩ hkey hfind hch]

/-- C5 witness at a concrete input. -/
theorem C5_expiry_computation_witness :
    storeFind (NodeCache.set defaultOpts 10 (JsVal.vstr "k") (JsVal.vnum 7)
      (some 0) initCache).2.data "k" = some ⟨0, JsVal.vnum 7⟩ ∧
    (NodeCache.get defaultOpts 99999999 (JsVal.vstr "k")
      (NodeCache.set defaultOpts 10 (JsVal.vstr "k") (JsVal.vnum 7)
        (some 0) initCache).2).1 = .ok (some (JsVal.vnum 7)) := by
  have h := C5_expiry_computation defaultOpts 10 99999999 (JsVal.vstr "k")
    (JsVal.vnum 7) initCache rfl (by decide)
  exact ⟨h.2.1, h.2.2.2⟩

/-- C4 counterexample to the claim as stated: with maxKeys = 1 and the key
"a" already present in the store, overwriting "a" does not succeed but
throws ECACHEFULL — the capacity check does not exempt existing keys. -/
theorem C4_counterexample :
    storeFind (NodeCache.set { defaultOpts with maxKeys := 1 } 0
        (JsVal.vstr "a") (JsVal.vnum 1) none initCache).2.data "a" =
      some ⟨0, JsVal.vnum 1⟩ ∧
    (NodeCache.set { defaultOpts with maxKeys := 1 } 5 (JsVal.vstr "a")
        (JsVal.vnum 2) none
        (NodeCache.set { defaultOpts with maxKeys := 1 } 0 (JsVal.vstr "a")
          (JsVal.vnum 1) none initCache).2).1 = .error .ECACHEFULL :=
  ⟨rfl, rfl⟩

/-- C4 (amended): with maxKeys ≥ 0 configured, set throws CacheFullError and
mutates nothing whenever stats.keys has reached the limit — whether or not
the key is already present — and succeeds for every valid key while below
the limit. -/
theorem C4_capacity_check (o : Opts) (now : Int) (key v : JsVal)
    (ttl : Option Int) (st : CacheState) (hmax : o.maxKeys > -1) :
    (st.stats.keys ≥ o.maxKeys →
      NodeCache.set o now key v ttl st = (.error .ECACHEFULL, st)) ∧
    (st.stats.keys < o.maxKeys → NodeCache.isInvalidKey key = none →
      (NodeCache.set o now key v ttl st).1 = .ok true) := by
  constructor
  · intro hge
    unfold NodeCache.set
    rw [if_pos ⟨hmax, hge⟩]
  · intro hlt hkey
    exact (set_ok_find o now key v ttl st hkey
      (fun hc => absurd hc.2 (not_le.mpr hlt))).1

/-- C4 witness at a concrete input. -/
theorem C4_capacity_check_witness :
    NodeCache.set { defaultOpts with maxKeys := 0 } 0 (JsVal.vstr "a")
      (JsVal.vnum 1) none initCache = (.error .ECACHEFULL, initCache) :=
  (C4_capacity_check { defaultOpts with maxKeys := 0 } 0 (JsVal.vstr "a")
    (JsVal.vnum 1) none initCache (by decide)).1 (by decide)

/-- C3 counterexample to the claim as stated: flushStats is in the listed
operations, yet after set("a", "x") followed by flushStats the stats say 0
keys while one entry is physically present — the counters desynchronize from
the store. -/
theorem C3_counterexample :
    (NodeCache.flushStats
        (NodeCache.set defaultOpts 0 (JsVal.vstr "a") (JsVal.vstr "x") none
          initCache).2).stats.keys = 0 ∧
    (NodeCache.flushStats
        (NodeCache.set defaultOpts 0 (JsVal.vstr "a") (JsVal.vstr "x") none
          initCache).2).data.length = 1 :=
  ⟨rfl, rfl⟩

/-- C3 (amended: flushStats removed from the operation list, and the
configured per-element size constants taken non-negative).  After every
sequence of set, mset, del, take, ttl and flushAll operations starting from
a fresh cache, stats.keys equals the number of physically present entries,
stats.ksize the sum of the measured key lengths, stats.vsize the sum of the
measured value sizes, and all five counters are non-negative. -/
theorem C3_stats_invariant (o : Opts) (hobj : 0 ≤ o.objectValueSize)
    (harr : 0 ≤ o.arrayValueSize) (ops : List CacheOp) :
    (runOps o ops initCache).stats.keys =
      ((runOps o ops initCache).data.length : Int) ∧
    (runOps o ops initCache).stats.ksize = ksizeOf (runOps o ops initCache).data ∧
    (runOps o ops initCache).stats.vsize =
      vsizeOf o (runOps o ops initCache).data ∧
    0 ≤ (runOps o ops initCache).stats.hits ∧
    0 ≤ (runOps o ops initCache).stats.misses ∧
    0 ≤ (runOps o ops initCache).stats.keys ∧
    0 ≤ (runOps o ops initCache).stats.ksize ∧
    0 ≤ (runOps o ops initCache).stats.vsize := by
  obtain ⟨h1, h2, h3, h4, h5⟩ :=
    runOps_statsConsistent o ops initCache (init_statsConsistent o)
  refine ⟨h1, h2, h3, h4, h5, ?_, ?_, ?_⟩
  · rw [h1]
    exact_mod_cast Nat.zero_le _
  · rw [h2]
    exact ksizeOf_nonneg _
  · rw [h3]
    exact vsizeOf_nonneg o hobj harr _

/-- C3 witness at a concrete input. -/
theorem C3_stats_invariant_witness :
    (runOps defaultOpts [CacheOp.opSet 0 (JsVal.vstr "a") (JsVal.vnum 1) none,
        CacheOp.opTake 0 (JsVal.vstr "a")] initCache).stats.keys =
      ((runOps defaultOpts [CacheOp.opSet 0 (JsVal.vstr "a") (JsVal.vnum 1)
        none, CacheOp.opTake 0 (JsVal.vstr "a")] initCache).data.length :
        Int) :=
  (C3_stats_invariant defaultOpts (by decide) (by decide)
    [CacheOp.opSet 0 (JsVal.vstr "a") (JsVal.vnum 1) none,
      CacheOp.opTake 0 (JsVal.vstr "a")]).1

/-- C1 counterexample to the claim as stated: with deleteOnExpire disabled
and an expired entry (expiry 1, clock 2), get returns the stored value and
counts a hit, has returns true and mget includes the key — the readers do
not treat the entry as absent. -/
theorem C1_counterexample :
    (NodeCache.get { defaultOpts with deleteOnExpire := false } 2
        (JsVal.vstr "k") ⟨[("k", ⟨1, JsVal.vstr "v"⟩)], zeroStats⟩).1 =
      .ok (some (JsVal.vstr "v")) ∧
    (NodeCache.get { defaultOpts with deleteOnExpire := false } 2
        (JsVal.vstr "k") ⟨[("k", ⟨1, JsVal.vstr "v"⟩)], zeroStats⟩).2.stats.hits
      = 1 ∧
    (NodeCache.has { defaultOpts with deleteOnExpire := false } 2
        (JsVal.vstr "k") ⟨[("k", ⟨1, JsVal.vstr "v"⟩)], zeroStats⟩).1 = true ∧
    (NodeCache.mget { defaultOpts with deleteOnExpire := false } 2
        [JsVal.vstr "k"] ⟨[("k", ⟨1, JsVal.vstr "v"⟩)], zeroStats⟩).1 =
      .ok [("k", JsVal.vstr "v")] :=
  ⟨rfl, rfl, rfl, rfl⟩

/-- C1 (amended): with deleteOnExpire disabled, an entry whose nonzero
expiry has passed stays fully visible: get returns its value and increments
hits while leaving the data untouched, has returns true without mutating
anything, and mget includes the key in its result mapping.  (Only with
deleteOnExpire enabled is such an entry treated as absent; each of these
readers still emits the expired event.) -/
theorem C1_expired_entry_visible_when_delete_disabled (o : Opts) (now : Int)
    (key : JsVal) (e : Entry) (st : CacheState)
    (hdel : o.deleteOnExpire = false)
    (hkey : NodeCache.isInvalidKey key = none)
    (hfind : storeFind st.data (keyToString key) = some e)
    (ht : e.t ≠ 0) (hlt : e.t < now) :
    NodeCache.get o now key st =
      (.ok (some e.v),
        ⟨st.data, { st.stats with hits := st.stats.hits + 1 }⟩) ∧
    NodeCache.has o now key st = (true, st) ∧
    (NodeCache.mget o now [key] st).1 = .ok [(keyToString key, e.v)] := by
  have hch := check_of_expired_no_delete o now (keyToString key) st e hfind
    hdel ht hlt
  refine ⟨get_hit o now key st e hkey hfind hch,
    has_of_found_check o now key st e hfind hch, ?_⟩
  unfold NodeCache.mget NodeCache.mgetGo
  simp only [hkey, hfind, hch]
  rw [if_pos trivial]
  rfl

/-- C1 witness at a concrete input. -/
theorem C1_expired_entry_visible_witness :
    NodeCache.get { defaultOpts with deleteOnExpire := false } 2
        (JsVal.vstr "k") ⟨[("k", ⟨1, JsVal.vstr "v"⟩)], zeroStats⟩ =
      (.ok (some (JsVal.vstr "v")),
        ⟨[("k", ⟨1, JsVal.vstr "v"⟩)],
          { zeroStats with hits := zeroStats.hits + 1 }⟩) ∧
    NodeCache.has { defaultOpts with deleteOnExpire := false } 2
        (JsVal.vstr "k") ⟨[("k", ⟨1, JsVal.vstr "v"⟩)], zeroStats⟩ =
      (true, ⟨[("k", ⟨1, JsVal.vstr "v"⟩)], zeroStats⟩) ∧
    (NodeCache.mget { defaultOpts with deleteOnExpire := false } 2
        [JsVal.vstr "k"] ⟨[("k", ⟨1, JsVal.vstr "v"⟩)], zeroStats⟩).1 =
      .ok [("k", JsVal.vstr "v")] :=
  C1_expired_entry_visible_when_delete_disabled
    { defaultOpts with deleteOnExpire := false } 2 (JsVal.vstr "k")
    ⟨1, JsVal.vstr "v"⟩ ⟨[("k", ⟨1, JsVal.vstr "v"⟩)], zeroStats⟩
    rfl rfl rfl (by decide) (by decide)

/-- C7 counterexample to the claim as stated: after set("k", null), the
first take returns null but does not remove the entry (has stays true), and
a second take again returns null instead of the not-found result — the
single-use contract fails for the storable value null. -/
theorem C7_counterexample :
    (NodeCache.take defaultOpts 0 (JsVal.vstr "k")
        (NodeCache.set defaultOpts 0 (JsVal.vstr "k") JsVal.vnull none
          initCache).2).1 = .ok JsVal.vnull ∧
    (NodeCache.has defaultOpts 0 (JsVal.vstr "k")
        (NodeCache.take defaultOpts 0 (JsVal.vstr "k")
          (NodeCache.set defaultOpts 0 (JsVal.vstr "k") JsVal.vnull none
            initCache).2).2).1 = true ∧
    (NodeCache.take defaultOpts 0 (JsVal.vstr "k")
        (NodeCache.take defaultOpts 0 (JsVal.vstr "k")
          (NodeCache.set defaultOpts 0 (JsVal.vstr "k") JsVal.vnull none
            initCache).2).2).1 = .ok JsVal.vnull :=
  ⟨rfl, rfl, rfl⟩

theorem take_of_absent (o : Opts) (now : Int) (key : JsVal) (st : CacheState)
    (hkey : NodeCache.isInvalidKey key = none)
    (hfind : storeFind st.data (keyToString key) = none) :
    (NodeCache.take o now key st).1 = .ok JsVal.vundef := by
  unfold NodeCache.take
  rw [get_miss_of_absent o now key st hkey hfind]
  simp only [Option.getD_none]
  rw [if_neg (by exact Bool.false_ne_true)]

/-- C7 (amended): for every storable value v other than null (take only
deletes when the value it returns is not strictly null), after set(k, v) the
first take returns v and removes the entry, has becomes false, and a second
take immediately after returns the not-found result (undefined). -/
theorem C7_take_single_use (o : Opts) (now : Int) (key v : JsVal)
    (st : CacheState) (hkey : NodeCache.isInvalidKey key = none)
    (hcap : ¬(o.maxKeys > -1 ∧ st.stats.keys ≥ o.maxKeys))
    (hstd : 0 ≤ o.stdTTL)
    (hnodup : (st.data.map Prod.fst).Nodup)
    (hv : v ≠ JsVal.vnull) :
    (NodeCache.take o now key
      (NodeCache.set o now key v none st).2).1 = .ok v ∧
    storeFind (NodeCache.take o now key
      (NodeCache.set o now key v none st).2).2.data (keyToString key) = none ∧
    (NodeCache.has o now key
      (NodeCache.take o now key
        (NodeCache.set o now key v none st).2).2).1 = false ∧
    (NodeCache.take o now key
      (NodeCache.take o now key
        (NodeCache.set o now key v none st).2).2).1 = .ok JsVal.vundef := by
  set st1 := (NodeCache.set o now key v none st).2 with hst1
  have hfind1 : storeFind st1.data (keyToString key) =
      some (NodeCache.wrap o now v none) := by
    rw [hst1, (set_ok_find o now key v none st hkey hcap).2]
    exact storeFind_alistSet_self _ _ _
  have hlive : ¬((NodeCache.wrap o now v none).t ≠ 0 ∧
      (NodeCache.wrap o now v none).t < now) := by
    simp only [NodeCache.wrap]
    by_cases h0 : o.stdTTL = 0
    · simp [h0]
    · simp only [if_neg h0]
      intro hc
      have : 0 ≤ o.stdTTL * 1000 := by positivity
      omega
  have hch := check_of_live o now (keyToString key) st1
    (NodeCache.wrap o now v none) hfind1 hlive
  have hget := get_hit o now key st1 (NodeCache.wrap o now v none) hkey
    hfind1 hch
  have hnodup1 : (st1.data.map Prod.fst).Nodup := by
    rw [hst1, (set_ok_find o now key v none st hkey hcap).2]
    exact nodup_map_fst_alistSet st.data _ _ hnodup
  have hwv : (NodeCache.wrap o now v none).v = v := rfl
  have htake : NodeCache.take o now key st1 =
      (.ok v,
        (NodeCache.delKeyStr o
          ⟨st1.data, { st1.stats with hits := st1.stats.hits + 1 }⟩
          (keyToString key)).2) := by
    unfold NodeCache.take
    rw [hget]
    simp only [hwv, Option.getD_some]
    rw [if_neg (by rw [isNull_eq_false_of_ne v hv]; exact Bool.false_ne_true)]
  have hdel : (NodeCache.delKeyStr o
      ⟨st1.data, { st1.stats with hits := st1.stats.hits + 1 }⟩
      (keyToString key)).2.data = storeErase st1.data (keyToString key) := by
    unfold NodeCache.delKeyStr
    simp only [hfind1]
  have hfind2 : storeFind (NodeCache.take o now key st1).2.data
      (keyToString key) = none := by
    rw [htake]
    simp only [hdel]
    exact storeFind_storeErase_self st1.data (keyToString key) hnodup1
  refine ⟨by rw [htake], hfind2, ?_, ?_⟩
  · rw [(has_of_absent o now key _ hfind2)]
  · exact take_of_absent o now key _ hkey hfind2

/-- C7 witness at a concrete input. -/
theorem C7_take_single_use_witness :
    (NodeCache.take defaultOpts 0 (JsVal.vstr "k")
      (NodeCache.set defaultOpts 0 (JsVal.vstr "k") (JsVal.vnum 7) none
        initCache).2).1 = .ok (JsVal.vnum 7) ∧
    (NodeCache.has defaultOpts 0 (JsVal.vstr "k")
      (NodeCache.take defaultOpts 0 (JsVal.vstr "k")
        (NodeCache.set defaultOpts 0 (JsVal.vstr "k") (JsVal.vnum 7) none
          initCache).2).2).1 = false := by
  have h := C7_take_single_use defaultOpts 0 (JsVal.vstr "k") (JsVal.vnum 7)
    initCache rfl (by decide) (by decide) (by decide)
    (by intro h; cases h)
  exact ⟨h.1, h.2.2.1⟩

/-- A pair that claim C8 calls invalid and that the mset validation loop
actually rejects: an invalid key, or a ttl that is truthy and not a number.
(A falsy non-numeric ttl — null, false, the empty string — passes the
validation because the source guards the type test with a truthiness
check.) -/
def badPair (p : NodeCache.MsetPair) : Bool :=
  (NodeCache.isInvalidKey p.key).isSome ||
    (p.ttl.truthy && (jsTypeof p.ttl != "number"))

theorem msetValidate_of_bad (pairs : List NodeCache.MsetPair)
    (h : ∃ p ∈ pairs, badPair p = true) :
    ∃ e, NodeCache.msetValidate pairs = some e := by
  induction pairs with
  | nil =>
      obtain ⟨p, hp, _⟩ := h
      simp at hp
  | cons q rest ih =>
      unfold NodeCache.msetValidate
      by_cases hq : (q.ttl.truthy && (jsTypeof q.ttl != "number")) = true
      · exact ⟨.ETTLTYPE, by rw [if_pos hq]⟩
      · rw [if_neg hq]
        cases hk : NodeCache.isInvalidKey q.key with
        | some e => exact ⟨e, rfl⟩
        | none =>
            obtain ⟨p, hp, hbad⟩ := h
            rcases List.mem_cons.mp hp with rfl | hmem
            · exfalso
              unfold badPair at hbad
              rw [hk] at hbad
              simp only [Option.isSome_none, Bool.false_or] at hbad
              exact hq hbad
            · exact ih ⟨p, hmem, hbad⟩

/-- C8 counterexample to the claim as stated: a pair whose ttl is null — a
non-numeric ttl — does not make mset throw; the batch is written.  (The
truthiness guard in the validation loop skips every falsy ttl.) -/
theorem C8_counterexample :
    (NodeCache.mset defaultOpts 0
        [⟨JsVal.vstr "a", JsVal.vstr "x", JsVal.vnull⟩] initCache).1 =
      .ok true ∧
    (NodeCache.mset defaultOpts 0
        [⟨JsVal.vstr "a", JsVal.vstr "x", JsVal.vnull⟩] initCache).2.data.length
      = 1 ∧
    jsTypeof JsVal.vnull ≠ "number" :=
  ⟨rfl, rfl, by decide⟩

/-- C8 (amended): mset validates every pair of the batch before performing
any write; if some pair has an invalid key or a truthy non-numeric ttl, the
call throws — the first such pair's validation error, unless the batch
capacity pre-check already threw CacheFull — and the store and stats are
left completely unchanged.  Falsy non-numeric ttls are accepted and fall
back to the default TTL. -/
theorem C8_mset_validation_atomic (o : Opts) (now : Int)
    (pairs : List NodeCache.MsetPair) (st : CacheState)
    (hbad : ∃ p ∈ pairs, badPair p = true) :
    (NodeCache.mset o now pairs st).2 = st ∧
    ∃ err, (NodeCache.mset o now pairs st).1 = .error err := by
  unfold NodeCache.mset
  by_cases hcap : o.maxKeys > -1 ∧
      st.stats.keys + (pairs.length : Int) ≥ o.maxKeys
  · rw [if_pos hcap]
    exact ⟨rfl, .ECACHEFULL, rfl⟩
  · rw [if_neg hcap]
    obtain ⟨e, he⟩ := msetValidate_of_bad pairs hbad
    rw [he]
    exact ⟨rfl, e, rfl⟩

/-- C8 witness at a concrete input. -/
theorem C8_mset_validation_atomic_witness :
    (NodeCache.mset defaultOpts 0
        [⟨JsVal.vstr "a", JsVal.vstr "x", JsVal.vstr "soon"⟩] initCache).2 =
      initCache ∧
    ∃ err, (NodeCache.mset defaultOpts 0
        [⟨JsVal.vstr "a", JsVal.vstr "x", JsVal.vstr "soon"⟩] initCache).1 =
      .error err :=
  C8_mset_validation_atomic defaultOpts 0
    [⟨JsVal.vstr "a", JsVal.vstr "x", JsVal.vstr "soon"⟩] initCache
    ⟨⟨JsVal.vstr "a", JsVal.vstr "x", JsVal.vstr "soon"⟩,
      List.mem_singleton.mpr rfl, rfl⟩

theorem arriveMany_all_waiting (m : Nat) (c : Nat) :
    Coalesce.arriveMany m ⟨none, true, c⟩ =
      (⟨none, true, c⟩, List.replicate m .waiter) := by
  induction m with
  | zero => rfl
  | succ k ih =>
      unfold Coalesce.arriveMany
      rw [show Coalesce.callArrive ⟨none, true, c⟩ =
        (⟨none, true, c⟩, .waiter) from rfl]
      simp only [ih, List.replicate]

/-- C2: when no live result is cached and no call is in flight, n ≥ 1
concurrent call invocations for the key — their atomic entry segments
interleaved in arrival order under run-to-completion — invoke the producer
exactly once, and when that single invocation resolves with v every one of
the n callers receives v. -/
theorem C2_call_coalescing (n : Nat) (hn : 1 ≤ n) (v : JsVal) :
    (Coalesce.arriveMany n ⟨none, false, 0⟩).1.producerCalls = 1 ∧
    (Coalesce.arriveMany n ⟨none, false, 0⟩).2.length = n ∧
    ∀ r ∈ (Coalesce.arriveMany n ⟨none, false, 0⟩).2,
      Coalesce.callerValue v r = v := by
  obtain ⟨k, rfl⟩ : ∃ k, n = k + 1 := ⟨n - 1, by omega⟩
  have hstep : Coalesce.arriveMany (k + 1) ⟨none, false, 0⟩ =
      (⟨none, true, 1⟩, .leader :: List.replicate k .waiter) := by
    unfold Coalesce.arriveMany
    rw [show Coalesce.callArrive ⟨none, false, 0⟩ =
      (⟨none, true, 1⟩, .leader) from rfl]
    simp only [arriveMany_all_waiting]
  rw [hstep]
  refine ⟨rfl, by simp, ?_⟩
  intro r hr
  rcases List.mem_cons.mp hr with rfl | hmem
  · rfl
  · rw [List.eq_of_mem_replicate hmem]
    rfl

/-- C2 witness at a concrete input. -/
theorem C2_call_coalescing_witness :
    (Coalesce.arriveMany 3 ⟨none, false, 0⟩).1.producerCalls = 1 ∧
    (Coalesce.arriveMany 3 ⟨none, false, 0⟩).2.length = 3 ∧
    ∀ r ∈ (Coalesce.arriveMany 3 ⟨none, false, 0⟩).2,
      Coalesce.callerValue (JsVal.vstr "x") r = JsVal.vstr "x" :=
  C2_call_coalescing 3 (by decide) (JsVal.vstr "x")

theorem getTtl_vstr_ok (o : Opts) (now : Int) (s : String) (st : CacheState) :
    ∃ tl rs, NodeCache.getTtl o now (JsVal.vstr s) st = (.ok tl, rs) := by
  unfold NodeCache.getTtl
  by_cases htr : (JsVal.vstr s).truthy = true
  · rw [if_neg (by simp [htr])]
    rw [show NodeCache.isInvalidKey (JsVal.vstr s) = none from rfl]
    cases hfind : storeFind st.data (keyToString (JsVal.vstr s)) with
    | none =>
        refine ⟨none, st, ?_⟩
        simp only [hfind]
    | some e =>
        by_cases hck :
            (NodeCache.check o now (keyToString (JsVal.vstr s)) st).1 = true
        · cases hfind2 : storeFind
              (NodeCache.check o now (keyToString (JsVal.vstr s)) st).2.data
              (keyToString (JsVal.vstr s)) with
          | none =>
              refine ⟨none,
                (NodeCache.check o now (keyToString (JsVal.vstr s)) st).2, ?_⟩
              simp only [hfind, hck, hfind2]
              rw [if_pos trivial]
          | some e2 =>
              refine ⟨some e2.t,
                (NodeCache.check o now (keyToString (JsVal.vstr s)) st).2, ?_⟩
              simp only [hfind, hck, hfind2]
              rw [if_pos trivial]
        · refine ⟨none,
            (NodeCache.check o now (keyToString (JsVal.vstr s)) st).2, ?_⟩
          simp only [Bool.not_eq_true] at hck
          simp only [hfind, hck]
          rw [if_neg (show ¬(false = true) from Bool.false_ne_true)]
  · rw [if_pos (by simp_all)]
    exact ⟨none, st, rfl⟩

theorem set_on_args_cache_ok (ttr now : Int) (s : String) (v : JsVal)
    (tl : Option Int) (st : CacheState) :
    ∃ st2, NodeCache.set (SnowCache.argsCacheOpts ttr) now (JsVal.vstr s) v
      tl st = (.ok true, st2) := by
  have hok := set_ok_find (SnowCache.argsCacheOpts ttr) now (JsVal.vstr s) v
    tl st rfl (fun hc => lt_irrefl (-1 : Int) hc.1)
  refine ⟨(NodeCache.set (SnowCache.argsCacheOpts ttr) now (JsVal.vstr s) v
    tl st).2, ?_⟩
  have h1 := hok.1
  cases hs : NodeCache.set (SnowCache.argsCacheOpts ttr) now (JsVal.vstr s) v
      tl st with
  | mk r st2 =>
      rw [hs] at h1
      simp only at h1
      rw [h1]

theorem catchBody_ok (so : SnowCache.SnowOpts) (now : Int) (k : String)
    (args : JsVal) (err : SnowCache.JsErr) (st : SnowCache.SnowState) :
    ∃ st2, SnowCache.catchBody so now k args err st =
      .ok (st2, [SnowCache.SnowEvent.refreshError err k args]) := by
  unfold SnowCache.catchBody
  obtain ⟨tl, rs, hg⟩ := getTtl_vstr_ok so.resultOpts now k st.results
  cases tl with
  | none =>
      simp only [hg]
      exact ⟨_, rfl⟩
  | some t =>
      simp only [hg]
      by_cases hre : ((t != 0) && decide (so.retryPause * 1000 < t)) = true
      · rw [if_pos hre]
        obtain ⟨ac, hs⟩ := set_on_args_cache_ok so.ttr now k args
          (some so.retryPause) st.argsCache
        simp only [hs]
        exact ⟨_, rfl⟩
      · rw [if_neg hre]
        exact ⟨_, rfl⟩

/-- C9: producer failures never escape a background refresh — refreshEntry
catches the rejection, returns normally and emits exactly one
refresh_error(error, key, args) notification (re-arming a retry at most) —
whereas on a foreground miss (no live result, no in-flight registration for
the key) the same rejection propagates to the call caller, with the
in-flight registration no longer present afterwards. -/
theorem C9_producer_failure_routing (so : SnowCache.SnowOpts) (now : Int)
    (k : String) (key args : JsVal) (msg : String)
    (st : SnowCache.SnowState) :
    (∃ st2, SnowCache.refreshEntry so now k args (.error msg) st =
      .ok (st2,
        [SnowCache.SnowEvent.refreshError (.producerErr msg) k args])) ∧
    ((NodeCache.has so.resultOpts now key st.results).1 = false →
      keyToString key ∉ st.running →
      (SnowCache.call1 so now key args (.error msg) st).1 =
        .error (.producerErr msg) ∧
      keyToString key ∉
        (SnowCache.call1 so now key args (.error msg) st).2.running) := by
  constructor
  · unfold SnowCache.refreshEntry
    exact catchBody_ok so now k args (.producerErr msg) st
  · intro hmiss hrun
    unfold SnowCache.call1
    constructor
    · rw [if_neg (by rw [hmiss]; exact Bool.false_ne_true)]
      rw [if_neg hrun]
    · rw [if_neg (by rw [hmiss]; exact Bool.false_ne_true)]
      rw [if_neg hrun]
      simp [List.erase_cons_head, hrun]

/-- C9 witness at a concrete input. -/
theorem C9_producer_failure_routing_witness :
    (∃ st2, SnowCache.refreshEntry ⟨defaultOpts, 600, 5⟩ 0 "k"
        (JsVal.vstr "a") (.error "boom") ⟨initCache, initCache, []⟩ =
      .ok (st2, [SnowCache.SnowEvent.refreshError (.producerErr "boom") "k"
        (JsVal.vstr "a")])) ∧
    (SnowCache.call1 ⟨defaultOpts, 600, 5⟩ 0 (JsVal.vstr "k") (JsVal.vstr "a")
        (.error "boom") ⟨initCache, initCache, []⟩).1 =
      .error (.producerErr "boom") ∧
    "k" ∉ (SnowCache.call1 ⟨defaultOpts, 600, 5⟩ 0 (JsVal.vstr "k")
        (JsVal.vstr "a") (.error "boom")
        ⟨initCache, initCache, []⟩).2.running := by
  have h := C9_producer_failure_routing ⟨defaultOpts, 600, 5⟩ 0 "k"
    (JsVal.vstr "k") (JsVal.vstr "a") "boom" ⟨initCache, initCache, []⟩
  have h2 := h.2 rfl (by simp)
  exact ⟨h.1, h2.1, h2.2⟩

/-- C6 is a units bug in the source: the retry re-arm condition compares
retryPause*1000 (a duration in ms) against the absolute expiry timestamp
returned by getTtl, not against the remaining life.  Here the result entry
for "k" expires at t = 2000001 while the clock reads 2000000 — one
millisecond of remaining life, far below retryPause = 5 seconds — yet the
failing refresh re-arms a retry (the args cache receives the key with TTL
retryPause, expiring at 2005000 ms), because 5000 < 2000001.  The claim and
the spec require no re-arm when the remaining life is at most retryPause. -/
theorem C6_failing_input_run :
    (SnowCache.refreshEntry ⟨defaultOpts, 600, 5⟩ 2000000 "k"
        (JsVal.vstr "args") (.error "boom")
        ⟨⟨[("k", ⟨2000001, JsVal.vstr "v"⟩)], ⟨0, 0, 1, 1, 1⟩⟩, initCache,
          []⟩).toOption.map
      (fun p => storeFind p.1.argsCache.data "k") =
    some (some ⟨2005000, JsVal.vstr "args"⟩) := rfl
